import Mathlib

/-!
Shallow embedding of `src/bench.rs` (zoobench), together with theorems about
its specified behaviour.

The remote ZooKeeper service is external: we model it as an oracle
`Env : ZkOp → ZRes` giving the outcome of each issued operation, and every
embedded function returns, besides its result, the trace (in issue order) of
the operations it actually performed.  Concurrent workers each receive their
own oracle (one session per worker); the joined runner concatenates their
traces in worker-index order, which is one linearisation of the interleaving —
all trace statements proved below are about which operations occur, per
worker, so the choice of linearisation is immaterial.

Rust `u32` arithmetic is embedded as `Nat` with an explicit wrap `u32`
(release-mode wrapping semantics) at the two multiplications of the
partitioning code; durations and throughput are embedded as `ℚ` (the source's
`f32` division is abstracted to exact rational division).
-/

/-- `zookeeper::CreateMode` — the two modes the source uses. -/
inductive CreateMode
  | Persistent
  | Ephemeral
deriving DecidableEq

/-- `zookeeper::ZkError`.  The source matches on `NoNode` and `NodeExists`;
`ApiError` and `ConnectionLoss` stand in for the crate's remaining variants
("any other failure"). -/
inductive ZkError
  | NoNode
  | NodeExists
  | ApiError
  | ConnectionLoss
deriving DecidableEq

/-- One call issued to the remote service.  `addAuth`'s credential is the
digest string (the source passes its bytes, `d.to_string().into_bytes()`,
which determine and are determined by the string). -/
inductive ZkOp
  | connect (hosts : String) (timeout : Nat)
  | addAuth (scheme : String) (digest : String)
  | deleteRecursive (path : String)
  | create (path : String) (value : List Nat) (mode : CreateMode)
  | getData (path : String) (watch : Bool)
deriving DecidableEq

/-- Outcome of one remote call (`Result<_, ZkError>` with the payload of a
successful call unused by the benchmark code). -/
inductive ZRes
  | ok
  | err (e : ZkError)
deriving DecidableEq

/-- The remote-service oracle: what each issued operation returns. -/
def Env : Type := ZkOp → ZRes

/-- `struct BenchOption` (bench.rs lines 20-31).  `prefix` is a Lean keyword,
so the field is named `pfx`.  `node_value` is the byte buffer, `timeout` the
duration in seconds. -/
structure BenchOption where
  hosts : String
  timeout : Nat
  iteration : Nat
  threads : Nat
  ephemeral : Bool
  node_value : List Nat
  pfx : String
  node_path_template : String
  digest : Option String
deriving DecidableEq

/-- `struct Cli` (main.rs lines 14-41).  The `digest` field is
Modelled from the spec: the `Cli` struct shown in `src/main.rs` lacks the
field that `impl From<Cli> for BenchOption` reads (`c.digest`), so the
configuration surface's "optional authentication digest string" is added
here as the spec describes it. -/
structure Cli where
  hosts : String
  timeout : Nat
  iteration : Nat
  threads : Nat
  node_size : Nat
  ephemeral : Bool
  pfx : String
  digest : Option String
deriving DecidableEq

/-- `impl From<Cli> for BenchOption` (bench.rs lines 33-49).  The random
payload buffer is produced by an external RNG; it is passed in as `buf`
(the source fills a fresh `vec![0; c.node_size]`). -/
def BenchOption.fromCli (c : Cli) (buf : List Nat) : BenchOption :=
  { hosts := c.hosts
    timeout := c.timeout
    iteration := c.iteration
    threads := c.threads
    ephemeral := c.ephemeral
    node_value := buf
    node_path_template := c.pfx ++ "/test-node"
    pfx := c.pfx
    digest := c.digest }

/-- `struct BenchResult` (bench.rs lines 51-55), durations as rational
seconds. -/
structure BenchResult where
  elapsed : ℚ
  tps : ℚ
  qps : ℚ
deriving DecidableEq

/-- Error type of the orchestration layer (`anyhow::Error` values that
actually flow).  `benchFailed` is Modelled from the spec: `error.rs` is not
in the sources; per the spec the runner's aggregate error is a bare
"benchmark failed" carrying no per-worker causes, matching the nullary call
`BenchError::BenchFailed()`. -/
inductive RunError
  | zk (e : ZkError)
  | benchFailed
deriving DecidableEq

/-- Result of the orchestrator. -/
inductive BRes
  | ok (r : BenchResult)
  | err (e : RunError)
deriving DecidableEq

/-- Result of one `do_bench` phase: the elapsed duration, or the aggregate
failure. -/
inductive DRes
  | ok (elapsed : ℚ)
  | err (e : RunError)
deriving DecidableEq

/-- Wrapping of Rust `u32` arithmetic. -/
def u32 (n : Nat) : Nat := n % 4294967296

/-- The index range of worker `tid` (bench.rs lines 159-160 and 185-186):
`let count = opt.iteration / opt.threads;` and the loop
`for i in tid * count..(tid + 1) * count`. -/
def workerRange (opt : BenchOption) (tid : Nat) : List Nat :=
  let count := opt.iteration / opt.threads
  List.range' (u32 (tid * count)) (u32 ((tid + 1) * count) - u32 (tid * count))

/-- Issue a fixed list of operations in order, stopping at the first failure
(the bodies of the worker loops: every error propagates via `?`). -/
def runOps (env : Env) : List ZkOp → List ZkOp × ZRes
  | [] => ([], ZRes.ok)
  | op :: rest =>
    match env op with
    | ZRes.ok =>
      let r := runOps env rest
      (op :: r.1, r.2)
    | ZRes.err e => ([op], ZRes.err e)

/-- The create issued for item `i` in the write phase (bench.rs lines
161-172): path `opt.node_path_template + i.to_string()`, the shared payload,
mode per the `ephemeral` flag. -/
def tpsOp (opt : BenchOption) (i : Nat) : ZkOp :=
  ZkOp.create (opt.node_path_template ++ toString i) opt.node_value
    (if opt.ephemeral then CreateMode.Ephemeral else CreateMode.Persistent)

/-- The read issued for item `i` in the read phase (bench.rs lines 187-188):
same path computation, `get_data(path, false)`. -/
def qpsOp (opt : BenchOption) (i : Nat) : ZkOp :=
  ZkOp.getData (opt.node_path_template ++ toString i) false

/-- `do_tps_bench` (bench.rs lines 155-179): connect, then create one node
per index of the worker's range, in ascending order, stopping at the first
failure. -/
def do_tps_bench (env : Env) (opt : BenchOption) (tid : Nat) : List ZkOp × ZRes :=
  runOps env
    (ZkOp.connect opt.hosts opt.timeout :: (workerRange opt tid).map (tpsOp opt))

/-- `do_qps_bench` (bench.rs lines 181-195). -/
def do_qps_bench (env : Env) (opt : BenchOption) (tid : Nat) : List ZkOp × ZRes :=
  runOps env
    (ZkOp.connect opt.hosts opt.timeout :: (workerRange opt tid).map (qpsOp opt))

/-- `skip_last` (bench.rs lines 63-66): drops the final element of the
iterator. -/
def skip_last (l : List String) : List String := l.dropLast

/-- Split a character list at every `'/'` (Rust `str::split("/")` yields the
substrings between occurrences, keeping leading/trailing empties). -/
def splitChars : List Char → List (List Char)
  | [] => [[]]
  | c :: cs =>
    if c = '/' then [] :: splitChars cs
    else
      match splitChars cs with
      | [] => [[c]]
      | l :: ls => (c :: l) :: ls

/-- Model of Rust's `split("/")` on a string. -/
def splitSlash (s : String) : List String :=
  (splitChars s.data).map (fun l => String.mk l)

/-- The segment walk of `prepare` (bench.rs lines 84-103): accumulate
`s.push('/'); s.push_str(p)` over the non-empty segments, creating an empty
persistent node at each accumulated path; `NodeExists` is tolerated, any
other failure aborts. -/
def prepareWalk (env : Env) (s : String) : List String → List ZkOp × ZRes
  | [] => ([], ZRes.ok)
  | p :: rest =>
    if p.isEmpty then prepareWalk env s rest
    else
      let s' := s ++ "/" ++ p
      let op := ZkOp.create s' [] CreateMode.Persistent
      match env op with
      | ZRes.ok =>
        let r := prepareWalk env s' rest
        (op :: r.1, r.2)
      | ZRes.err ZkError.NodeExists =>
        let r := prepareWalk env s' rest
        (op :: r.1, r.2)
      | ZRes.err e => ([op], ZRes.err e)

/-- The trace of the optional `add_auth` call (bench.rs lines 71-76). -/
def authTrace (opt : BenchOption) : List ZkOp :=
  match opt.digest with
  | some d => [ZkOp.addAuth "digest" d]
  | none => []

/-- `prepare` (bench.rs lines 68-105): connect, optionally authenticate,
recursively delete the namespace (tolerating `NoNode`), then walk the
intermediate segments of the node-path template. -/
def prepare (env : Env) (opt : BenchOption) : List ZkOp × ZRes :=
  let cop := ZkOp.connect opt.hosts opt.timeout
  match env cop with
  | ZRes.err e => ([cop], ZRes.err e)
  | ZRes.ok =>
    let ares : ZRes :=
      match opt.digest with
      | some d => env (ZkOp.addAuth "digest" d)
      | none => ZRes.ok
    match ares with
    | ZRes.err e => (cop :: authTrace opt, ZRes.err e)
    | ZRes.ok =>
      let dop := ZkOp.deleteRecursive opt.pfx
      match env dop with
      | ZRes.ok =>
        let w := prepareWalk env "" (skip_last (splitSlash opt.node_path_template))
        (cop :: authTrace opt ++ dop :: w.1, w.2)
      | ZRes.err ZkError.NoNode =>
        let w := prepareWalk env "" (skip_last (splitSlash opt.node_path_template))
        (cop :: authTrace opt ++ dop :: w.1, w.2)
      | ZRes.err e => (cop :: authTrace opt ++ [dop], ZRes.err e)

/-- The per-worker test of the join loop (bench.rs lines 122-130): did this
worker end in `Err`? -/
def isErrRes : ZRes → Bool
  | ZRes.ok => false
  | ZRes.err _ => true

/-- `do_bench` (bench.rs lines 107-138): run one worker per `tid` in
`0..opt.threads` (each on its own session/oracle `envs tid`), join them all,
and fail with the bare aggregate error iff at least one worker failed; the
measured wall-clock `elapsed` is external input. -/
def do_bench (envs : Nat → Env) (opt : BenchOption) (elapsed : ℚ)
    (bench_fn : Env → BenchOption → Nat → List ZkOp × ZRes) : List ZkOp × DRes :=
  let runs := (List.range opt.threads).map fun tid => bench_fn (envs tid) opt tid
  let is_err := runs.any fun r => isErrRes r.2
  ((runs.map Prod.fst).flatten,
    if is_err then DRes.err RunError.benchFailed else DRes.ok elapsed)

/-- `bench` (bench.rs lines 140-153): prepare, write phase, read phase; the
two phase durations `e1`, `e2` are the externally measured wall-clock times,
and `envP`, `envs1`, `envs2` the oracles of the three connection groups. -/
def bench (envP : Env) (envs1 envs2 : Nat → Env) (e1 e2 : ℚ)
    (opt : BenchOption) : List ZkOp × BRes :=
  let p := prepare envP opt
  match p.2 with
  | ZRes.err e => (p.1, BRes.err (RunError.zk e))
  | ZRes.ok =>
    let w := do_bench envs1 opt e1 do_tps_bench
    match w.2 with
    | DRes.err er => (p.1 ++ w.1, BRes.err er)
    | DRes.ok elapsed =>
      let tps := (opt.iteration : ℚ) / elapsed
      let r := do_bench envs2 opt e2 do_qps_bench
      match r.2 with
      | DRes.err er => (p.1 ++ w.1 ++ r.1, BRes.err er)
      | DRes.ok elapsed2 =>
        (p.1 ++ w.1 ++ r.1,
          BRes.ok { elapsed := elapsed2, tps := tps,
                    qps := (opt.iteration : ℚ) / elapsed2 })

/-- The accumulated paths the segment walk creates, independent of the
oracle (the pure shadow of `prepareWalk`). -/
def walkPaths (s : String) : List String → List String
  | [] => []
  | p :: rest =>
    if p.isEmpty then walkPaths s rest
    else (s ++ "/" ++ p) :: walkPaths (s ++ "/" ++ p) rest

/-- Path accumulation over a list of (already non-empty) segments. -/
def accumFrom (s : String) : List String → List String
  | [] => []
  | p :: rest => (s ++ "/" ++ p) :: accumFrom (s ++ "/" ++ p) rest

/-- Spec-side definition, following the spec's words for comparison with the
source's walk: the accumulated paths of every non-empty segment of the
template except the final leaf segment (the source instead drops the final
raw segment first and then skips empty ones). -/
def specWalkPaths (template : String) : List String :=
  accumFrom "" (((splitSlash template).filter (fun p => !p.isEmpty)).dropLast)

/-! ### Helper lemmas -/

/-- Under the claims' preconditions the `u32` wraps are vacuous and worker
`tid`'s range is the plain arithmetic range of the partitioning scheme. -/
theorem workerRange_eq (opt : BenchOption) (tid : Nat)
    (hw : opt.iteration < 4294967296) (ht : tid < opt.threads) :
    workerRange opt tid =
      List.range' (tid * (opt.iteration / opt.threads))
        (opt.iteration / opt.threads) := by
  have hbound : opt.threads * (opt.iteration / opt.threads) ≤ opt.iteration :=
    Nat.mul_div_le opt.iteration opt.threads
  have h1 : (tid + 1) * (opt.iteration / opt.threads) ≤ opt.iteration :=
    le_trans (Nat.mul_le_mul_right _ ht) hbound
  have h0' : tid * (opt.iteration / opt.threads) ≤ opt.iteration :=
    le_trans (Nat.mul_le_mul_right _ (le_of_lt ht)) hbound
  show List.range' (u32 (tid * (opt.iteration / opt.threads)))
      (u32 ((tid + 1) * (opt.iteration / opt.threads)) -
        u32 (tid * (opt.iteration / opt.threads))) = _
  unfold u32
  rw [Nat.mod_eq_of_lt (lt_of_le_of_lt h0' hw),
    Nat.mod_eq_of_lt (lt_of_le_of_lt h1 hw),
    Nat.succ_mul, Nat.add_sub_cancel_left]

/-- Membership in a worker's range, under the claims' preconditions. -/
theorem mem_workerRange (opt : BenchOption) (tid : Nat) (i : Nat)
    (hw : opt.iteration < 4294967296) (ht : tid < opt.threads) :
    i ∈ workerRange opt tid ↔
      tid * (opt.iteration / opt.threads) ≤ i ∧
      i < tid * (opt.iteration / opt.threads) + opt.iteration / opt.threads := by
  rw [workerRange_eq opt tid hw ht]
  exact List.mem_range'_1

/-- A worker whose every planned operation succeeds issues all of them. -/
theorem runOps_all_ok (env : Env) (l : List ZkOp)
    (h : ∀ op ∈ l, env op = ZRes.ok) : runOps env l = (l, ZRes.ok) := by
  induction l with
  | nil => rfl
  | cons op rest ih =>
    have hop : env op = ZRes.ok := h op (List.mem_cons_self op rest)
    have := ih fun o ho => h o (List.mem_cons_of_mem op ho)
    simp [runOps, hop, this]

/-- A worker stops at its first failing operation: nothing after it is
issued. -/
theorem runOps_fail_at (env : Env) (l1 l2 : List ZkOp) (op : ZkOp) (e : ZkError)
    (h1 : ∀ o ∈ l1, env o = ZRes.ok) (hf : env op = ZRes.err e) :
    runOps env (l1 ++ op :: l2) = (l1 ++ [op], ZRes.err e) := by
  induction l1 with
  | nil => simp [runOps, hf]
  | cons o rest ih =>
    have ho : env o = ZRes.ok := h1 o (List.mem_cons_self o rest)
    have := ih fun o' ho' => h1 o' (List.mem_cons_of_mem o ho')
    simp [runOps, ho, this]

/-- The issued trace is an initial segment of the planned operation list. -/
theorem runOps_trace_isPre (env : Env) (l : List ZkOp) :
    (runOps env l).1 <+: l := by
  induction l with
  | nil => exact List.nil_prefix
  | cons op rest ih =>
    unfold runOps
    match henv : env op with
    | ZRes.ok => exact List.cons_prefix_cons.mpr ⟨rfl, ih⟩
    | ZRes.err e => exact ⟨rest, rfl⟩

/-- Every issued operation was a planned one. -/
theorem runOps_trace_mem (env : Env) (l : List ZkOp) (op : ZkOp)
    (h : op ∈ (runOps env l).1) : op ∈ l :=
  (runOps_trace_isPre env l).subset h

/-- Shape of the operations a write-phase worker issues. -/
theorem do_tps_bench_ops (env : Env) (opt : BenchOption) (tid : Nat) :
    ∀ op ∈ (do_tps_bench env opt tid).1,
      op = ZkOp.connect opt.hosts opt.timeout ∨
      ∃ i ∈ workerRange opt tid, op = tpsOp opt i := by
  intro op hop
  have := runOps_trace_mem env _ op hop
  rcases List.mem_cons.mp this with h | h
  · exact Or.inl h
  · rcases List.mem_map.mp h with ⟨i, hi, rfl⟩
    exact Or.inr ⟨i, hi, rfl⟩

/-- Shape of the operations a read-phase worker issues. -/
theorem do_qps_bench_ops (env : Env) (opt : BenchOption) (tid : Nat) :
    ∀ op ∈ (do_qps_bench env opt tid).1,
      op = ZkOp.connect opt.hosts opt.timeout ∨
      ∃ i ∈ workerRange opt tid, op = qpsOp opt i := by
  intro op hop
  have := runOps_trace_mem env _ op hop
  rcases List.mem_cons.mp this with h | h
  · exact Or.inl h
  · rcases List.mem_map.mp h with ⟨i, hi, rfl⟩
    exact Or.inr ⟨i, hi, rfl⟩

/-- A worker loop over an ascending index range, failing first at index `k`:
it issues the connect, then exactly the operations for indices up to and
including `k`, and returns that error. -/
theorem runOps_worker_fail (env : Env) (f : Nat → ZkOp) (cop : ZkOp)
    (s c k : Nat) (e : ZkError)
    (hc : env cop = ZRes.ok) (hks : s ≤ k) (hkc : k < s + c)
    (hok : ∀ i, s ≤ i → i < k → env (f i) = ZRes.ok)
    (hfail : env (f k) = ZRes.err e) :
    runOps env (cop :: (List.range' s c).map f) =
      (cop :: (List.range' s (k + 1 - s)).map f, ZRes.err e) := by
  have hm : k - s < c := by omega
  have hsplit : List.range' s c = List.range' s (k - s) ++ k :: List.range' (k + 1) (c - (k - s) - 1) := by
    have h1 : List.range' s (k - s) ++ List.range' (s + (k - s)) (c - (k - s)) =
        List.range' s (c - (k - s) + (k - s)) := List.range'_append_1 s (k - s) (c - (k - s))
    have h2 : s + (k - s) = k := by omega
    have h3 : c - (k - s) + (k - s) = c := by omega
    have h4 : List.range' k (c - (k - s)) = k :: List.range' (k + 1) (c - (k - s) - 1) := by
      have h5 := List.range'_succ k (c - (k - s) - 1) 1
      have h6 : c - (k - s) - 1 + 1 = c - (k - s) := by omega
      rw [h6] at h5
      simpa using h5
    rw [h2, h3] at h1
    rw [← h1, h4]
  have hall : ∀ o ∈ cop :: (List.range' s (k - s)).map f, env o = ZRes.ok := by
    intro o ho
    rcases List.mem_cons.mp ho with rfl | ho
    · exact hc
    · rcases List.mem_map.mp ho with ⟨i, hi, rfl⟩
      have := List.mem_range'_1.mp hi
      exact hok i this.1 (by omega)
  have heq : cop :: (List.range' s c).map f =
      (cop :: (List.range' s (k - s)).map f) ++ f k :: (List.range' (k + 1) (c - (k - s) - 1)).map f := by
    rw [hsplit]; simp
  rw [heq, runOps_fail_at env _ _ _ e hall hfail]
  have hlast : List.range' s (k - s) ++ [k] = List.range' s (k + 1 - s) := by
    have h1 : List.range' s (k - s) ++ List.range' (s + (k - s)) 1 =
        List.range' s (1 + (k - s)) := List.range'_append_1 s (k - s) 1
    have h2 : s + (k - s) = k := by omega
    have h3 : (1 : Nat) + (k - s) = k + 1 - s := by omega
    rw [h2, h3] at h1
    simpa using h1
  rw [← hlast]
  simp

/-! ### C1 -/

/-- C1: with `0 < workerCount ≤ totalIterations` (and the count in `u32`
range), letting `count = totalIterations / workerCount`, worker `t`'s range
is exactly the contiguous `[t*count, (t+1)*count)`; distinct workers' ranges
are disjoint; the union of all workers' ranges is exactly
`[0, workerCount*count)`; and no trailing index `≥ workerCount*count` is
assigned to any worker. -/
theorem c1_partition_coverage (opt : BenchOption)
    (hw : opt.iteration < 4294967296) (h0 : 0 < opt.threads)
    (h2 : opt.threads ≤ opt.iteration) :
    (∀ tid, tid < opt.threads →
      workerRange opt tid =
        List.range' (tid * (opt.iteration / opt.threads))
          (opt.iteration / opt.threads))
  ∧ (∀ t t', t < opt.threads → t' < opt.threads → t ≠ t' →
      ∀ i, i ∈ workerRange opt t → i ∉ workerRange opt t')
  ∧ (∀ i, (∃ t, t < opt.threads ∧ i ∈ workerRange opt t) ↔
      i < opt.threads * (opt.iteration / opt.threads))
  ∧ (∀ i, opt.threads * (opt.iteration / opt.threads) ≤ i →
      ∀ t, t < opt.threads → i ∉ workerRange opt t) := by
  have hc : 0 < opt.iteration / opt.threads := Nat.div_pos h2 h0
  have key : ∀ t i, t < opt.threads →
      (i ∈ workerRange opt t ↔
        t * (opt.iteration / opt.threads) ≤ i ∧
        i < t * (opt.iteration / opt.threads) + opt.iteration / opt.threads) :=
    fun t i ht => mem_workerRange opt t i hw ht
  have hrange : ∀ tid, tid < opt.threads →
      workerRange opt tid =
        List.range' (tid * (opt.iteration / opt.threads))
          (opt.iteration / opt.threads) :=
    fun tid ht => workerRange_eq opt tid hw ht
  generalize opt.iteration / opt.threads = c at hc key hrange ⊢
  have hdiv : ∀ t i, t * c ≤ i → i < t * c + c → i / c = t := by
    intro t i hlo hhi
    exact Nat.div_eq_of_lt_le hlo (by rw [Nat.succ_mul]; exact hhi)
  refine ⟨hrange, ?_, ?_, ?_⟩
  · intro t t' ht ht' hne i hi hi'
    rw [key t i ht] at hi
    rw [key t' i ht'] at hi'
    exact hne ((hdiv t i hi.1 hi.2).symm.trans (hdiv t' i hi'.1 hi'.2))
  · intro i
    constructor
    · rintro ⟨t, ht, hi⟩
      rw [key t i ht] at hi
      calc i < t * c + c := hi.2
        _ = (t + 1) * c := (Nat.succ_mul t c).symm
        _ ≤ opt.threads * c := Nat.mul_le_mul_right c ht
    · intro hi
      have htid : i / c < opt.threads := (Nat.div_lt_iff_lt_mul hc).mpr hi
      refine ⟨i / c, htid, ?_⟩
      rw [key (i / c) i htid]
      refine ⟨Nat.div_mul_le_self i c, ?_⟩
      calc i = c * (i / c) + i % c := (Nat.div_add_mod i c).symm
        _ < c * (i / c) + c := Nat.add_lt_add_left (Nat.mod_lt i hc) _
        _ = i / c * c + c := by rw [Nat.mul_comm]
  · intro i hi t ht hmem
    rw [key t i ht] at hmem
    have : i < opt.threads * c :=
      calc i < t * c + c := hmem.2
        _ = (t + 1) * c := (Nat.succ_mul t c).symm
        _ ≤ opt.threads * c := Nat.mul_le_mul_right c ht
    exact absurd hi (not_le.mpr this)

/-- A concrete configuration used by several witnesses: 10 iterations over
3 workers (so `count = 3` and one trailing index is dropped). -/
def optW : BenchOption :=
  { hosts := "h", timeout := 10, iteration := 10, threads := 3,
    ephemeral := false, node_value := [7], pfx := "/zoobench",
    node_path_template := "/zoobench/test-node", digest := none }

/-- Witness for C1 at `totalIterations = 10`, `workerCount = 3`: worker 2
gets exactly `[6, 7, 8]`. -/
theorem c1_partition_coverage_witness :
    (optW.iteration < 4294967296 ∧ 0 < optW.threads ∧ optW.threads ≤ optW.iteration)
  ∧ workerRange optW 2 =
      List.range' (2 * (optW.iteration / optW.threads)) (optW.iteration / optW.threads) :=
  ⟨⟨by decide, by decide, by decide⟩,
    (c1_partition_coverage optW (by decide) (by decide) (by decide)).1 2 (by decide)⟩

/-! ### C7 -/

/-- C7: within one worker, in both phases, indices are processed strictly in
ascending order — the issued trace is always an initial segment of the
ascending plan; when every operation succeeds the worker issues exactly its
full ascending range; and when the operation at index `k` is the first to
fail, the worker issues exactly the operations for indices up to and
including `k` and returns that error, attempting nothing for any later
index. -/
theorem c7_worker_fail_fast (env : Env) (opt : BenchOption) (tid k : Nat) (e : ZkError)
    (hw : opt.iteration < 4294967296) (ht : tid < opt.threads)
    (hc : env (ZkOp.connect opt.hosts opt.timeout) = ZRes.ok) :
    ((do_tps_bench env opt tid).1 <+:
        ZkOp.connect opt.hosts opt.timeout :: (workerRange opt tid).map (tpsOp opt))
  ∧ ((∀ i ∈ workerRange opt tid, env (tpsOp opt i) = ZRes.ok) →
      do_tps_bench env opt tid =
        (ZkOp.connect opt.hosts opt.timeout :: (workerRange opt tid).map (tpsOp opt),
         ZRes.ok))
  ∧ (k ∈ workerRange opt tid →
      (∀ i ∈ workerRange opt tid, i < k → env (tpsOp opt i) = ZRes.ok) →
      env (tpsOp opt k) = ZRes.err e →
      do_tps_bench env opt tid =
        (ZkOp.connect opt.hosts opt.timeout ::
          (List.range' (tid * (opt.iteration / opt.threads))
            (k + 1 - tid * (opt.iteration / opt.threads))).map (tpsOp opt),
         ZRes.err e))
  ∧ ((do_qps_bench env opt tid).1 <+:
        ZkOp.connect opt.hosts opt.timeout :: (workerRange opt tid).map (qpsOp opt))
  ∧ ((∀ i ∈ workerRange opt tid, env (qpsOp opt i) = ZRes.ok) →
      do_qps_bench env opt tid =
        (ZkOp.connect opt.hosts opt.timeout :: (workerRange opt tid).map (qpsOp opt),
         ZRes.ok))
  ∧ (k ∈ workerRange opt tid →
      (∀ i ∈ workerRange opt tid, i < k → env (qpsOp opt i) = ZRes.ok) →
      env (qpsOp opt k) = ZRes.err e →
      do_qps_bench env opt tid =
        (ZkOp.connect opt.hosts opt.timeout ::
          (List.range' (tid * (opt.iteration / opt.threads))
            (k + 1 - tid * (opt.iteration / opt.threads))).map (qpsOp opt),
         ZRes.err e)) := by
  have gen : ∀ f : Nat → ZkOp,
      ((runOps env (ZkOp.connect opt.hosts opt.timeout :: (workerRange opt tid).map f)).1 <+:
          ZkOp.connect opt.hosts opt.timeout :: (workerRange opt tid).map f)
    ∧ ((∀ i ∈ workerRange opt tid, env (f i) = ZRes.ok) →
        runOps env (ZkOp.connect opt.hosts opt.timeout :: (workerRange opt tid).map f) =
          (ZkOp.connect opt.hosts opt.timeout :: (workerRange opt tid).map f, ZRes.ok))
    ∧ (k ∈ workerRange opt tid →
        (∀ i ∈ workerRange opt tid, i < k → env (f i) = ZRes.ok) →
        env (f k) = ZRes.err e →
        runOps env (ZkOp.connect opt.hosts opt.timeout :: (workerRange opt tid).map f) =
          (ZkOp.connect opt.hosts opt.timeout ::
            (List.range' (tid * (opt.iteration / opt.threads))
              (k + 1 - tid * (opt.iteration / opt.threads))).map f,
           ZRes.err e)) := by
    intro f
    refine ⟨runOps_trace_isPre env _, ?_, ?_⟩
    · intro hall
      apply runOps_all_ok
      intro op hop
      rcases List.mem_cons.mp hop with rfl | hop
      · exact hc
      · rcases List.mem_map.mp hop with ⟨i, hi, rfl⟩
        exact hall i hi
    · intro hk hok hf
      rw [workerRange_eq opt tid hw ht] at hk hok ⊢
      have hb := List.mem_range'_1.mp hk
      exact runOps_worker_fail env f _ _ _ k e hc hb.1 hb.2
        (fun i h1 h2 => hok i (List.mem_range'_1.mpr ⟨h1, by omega⟩) h2) hf
  exact ⟨(gen (tpsOp opt)).1, (gen (tpsOp opt)).2.1, (gen (tpsOp opt)).2.2,
         (gen (qpsOp opt)).1, (gen (qpsOp opt)).2.1, (gen (qpsOp opt)).2.2⟩

/-- A 6-item single-worker configuration for the C7 witness. -/
def optW6 : BenchOption :=
  { hosts := "h", timeout := 10, iteration := 6, threads := 1,
    ephemeral := false, node_value := [1], pfx := "/zoobench",
    node_path_template := "/zoobench/test-node", digest := none }

/-- An oracle that fails exactly the write of item 4. -/
def envFail4 : Env := fun op =>
  if op = tpsOp optW6 4 then ZRes.err ZkError.ConnectionLoss else ZRes.ok

/-- Witness for C7: with the write of item 4 failing, worker 0 issues exactly
the connect and the creates for items 0..4 and stops with the error, while
the read phase (where nothing fails) runs its full ascending range. -/
theorem c7_worker_fail_fast_witness :
    (envFail4 (ZkOp.connect optW6.hosts optW6.timeout) = ZRes.ok
      ∧ 4 ∈ workerRange optW6 0
      ∧ envFail4 (tpsOp optW6 4) = ZRes.err ZkError.ConnectionLoss)
  ∧ do_tps_bench envFail4 optW6 0 =
      (ZkOp.connect optW6.hosts optW6.timeout ::
        (List.range' (0 * (optW6.iteration / optW6.threads))
          (4 + 1 - 0 * (optW6.iteration / optW6.threads))).map (tpsOp optW6),
       ZRes.err ZkError.ConnectionLoss)
  ∧ do_qps_bench envFail4 optW6 0 =
      (ZkOp.connect optW6.hosts optW6.timeout ::
        (workerRange optW6 0).map (qpsOp optW6), ZRes.ok) :=
  ⟨⟨by decide, by decide, by decide⟩,
   (c7_worker_fail_fast envFail4 optW6 0 4 ZkError.ConnectionLoss
      (by decide) (by decide) (by decide)).2.2.1 (by decide) (by decide) (by decide),
   (c7_worker_fail_fast envFail4 optW6 0 4 ZkError.ConnectionLoss
      (by decide) (by decide) (by decide)).2.2.2.2.1 (by decide)⟩

/-! ### C2 -/

/-- The all-successful oracle. -/
def envOk : Env := fun _ => ZRes.ok

/-- A single-item single-worker configuration with the credential set. -/
def optAuth : BenchOption :=
  { hosts := "h", timeout := 10, iteration := 1, threads := 1,
    ephemeral := false, node_value := [1], pfx := "/zoobench",
    node_path_template := "/zoobench/test-node", digest := some "user:pass" }

/-- C2 counterexample: with `authDigest` set, a write-phase worker and a
read-phase worker issue exactly their connect followed by their item
operations — no credential is ever applied to the worker's session, in
either phase, even though create/read operations are performed. -/
theorem c2_counterexample_worker_no_auth :
    optAuth.digest = some "user:pass"
  ∧ do_tps_bench envOk optAuth 0 =
      ([ZkOp.connect "h" 10,
        ZkOp.create "/zoobench/test-node0" [1] CreateMode.Persistent], ZRes.ok)
  ∧ do_qps_bench envOk optAuth 0 =
      ([ZkOp.connect "h" 10, ZkOp.getData "/zoobench/test-node0" false], ZRes.ok) := by
  refine ⟨rfl, by decide, by decide⟩

/-- C2 amended: when `authDigest` is set, only the Namespace Preparer applies
the credential — directly after its connect, hence before its delete and
creates — while the benchmark workers never apply any credential to their own
sessions, in either the write or the read phase. -/
theorem c2_amended_only_preparer_auth (env : Env) (opt : BenchOption) (d : String) (tid : Nat)
    (hd : opt.digest = some d)
    (hc : env (ZkOp.connect opt.hosts opt.timeout) = ZRes.ok) :
    (∃ rest, (prepare env opt).1 =
      ZkOp.connect opt.hosts opt.timeout :: ZkOp.addAuth "digest" d :: rest)
  ∧ (∀ s c, ZkOp.addAuth s c ∉ (do_tps_bench env opt tid).1)
  ∧ (∀ s c, ZkOp.addAuth s c ∉ (do_qps_bench env opt tid).1) := by
  refine ⟨?_, ?_, ?_⟩
  · cases henva : env (ZkOp.addAuth "digest" d) with
    | err e =>
      exact ⟨[], by simp [prepare, hc, hd, authTrace, henva]⟩
    | ok =>
      cases henvd : env (ZkOp.deleteRecursive opt.pfx) with
      | ok =>
        exact ⟨ZkOp.deleteRecursive opt.pfx ::
            (prepareWalk env "" (skip_last (splitSlash opt.node_path_template))).1,
          by simp [prepare, hc, hd, authTrace, henva, henvd]⟩
      | err e =>
        cases e with
        | NoNode =>
          exact ⟨ZkOp.deleteRecursive opt.pfx ::
              (prepareWalk env "" (skip_last (splitSlash opt.node_path_template))).1,
            by simp [prepare, hc, hd, authTrace, henva, henvd]⟩
        | NodeExists =>
          exact ⟨[ZkOp.deleteRecursive opt.pfx],
            by simp [prepare, hc, hd, authTrace, henva, henvd]⟩
        | ApiError =>
          exact ⟨[ZkOp.deleteRecursive opt.pfx],
            by simp [prepare, hc, hd, authTrace, henva, henvd]⟩
        | ConnectionLoss =>
          exact ⟨[ZkOp.deleteRecursive opt.pfx],
            by simp [prepare, hc, hd, authTrace, henva, henvd]⟩
  · intro s c h
    rcases do_tps_bench_ops env opt tid _ h with h1 | ⟨i, _, h1⟩
    · simp at h1
    · simp [tpsOp] at h1
  · intro s c h
    rcases do_qps_bench_ops env opt tid _ h with h1 | ⟨i, _, h1⟩
    · simp at h1
    · simp [qpsOp] at h1

/-- Witness for the amended C2 at a concrete configuration: the preparer's
trace opens with connect followed by the authentication, and the write-phase
worker's trace contains no authentication. -/
theorem c2_amended_only_preparer_auth_witness :
    (optAuth.digest = some "user:pass"
      ∧ envOk (ZkOp.connect optAuth.hosts optAuth.timeout) = ZRes.ok)
  ∧ (∃ rest, (prepare envOk optAuth).1 =
      ZkOp.connect optAuth.hosts optAuth.timeout ::
        ZkOp.addAuth "digest" "user:pass" :: rest)
  ∧ ZkOp.addAuth "digest" "user:pass" ∉ (do_tps_bench envOk optAuth 0).1 :=
  ⟨⟨rfl, rfl⟩,
   (c2_amended_only_preparer_auth envOk optAuth "user:pass" 0 rfl rfl).1,
   (c2_amended_only_preparer_auth envOk optAuth "user:pass" 0 rfl rfl).2.1
     "digest" "user:pass"⟩

/-! ### C4 -/

/-- C4: the runner returns an error exactly when at least one worker
failed, and that error is the bare aggregate "benchmark failed" value
carrying none of the workers' causes; when every worker succeeds it returns
the measured elapsed duration (and in the failure case no duration is
returned). -/
theorem c4_runner_aggregate_error (envs : Nat → Env) (opt : BenchOption) (el : ℚ)
    (f : Env → BenchOption → Nat → List ZkOp × ZRes) :
    ((∃ tid, tid < opt.threads ∧ ∃ e, (f (envs tid) opt tid).2 = ZRes.err e) →
      (do_bench envs opt el f).2 = DRes.err RunError.benchFailed)
  ∧ ((∀ tid, tid < opt.threads → (f (envs tid) opt tid).2 = ZRes.ok) →
      (do_bench envs opt el f).2 = DRes.ok el) := by
  constructor
  · rintro ⟨tid, htid, e, he⟩
    have hany : (((List.range opt.threads).map fun t => f (envs t) opt t).any
        fun r => isErrRes r.2) = true :=
      List.any_eq_true.mpr ⟨f (envs tid) opt tid,
        List.mem_map.mpr ⟨tid, List.mem_range.mpr htid, rfl⟩, by simp [isErrRes, he]⟩
    simp [do_bench, hany]
  · intro h
    have hany : (((List.range opt.threads).map fun t => f (envs t) opt t).any
        fun r => isErrRes r.2) = false := by
      rw [List.any_eq_false]
      rintro r hr
      rcases List.mem_map.mp hr with ⟨tid, htid, rfl⟩
      simp [isErrRes, h tid (List.mem_range.mp htid)]
    simp [do_bench, hany]

/-- The always-failing oracle (connection refused everywhere). -/
def envBad : Env := fun _ => ZRes.err ZkError.ConnectionLoss

/-- Witness for C4 on the 10-item 3-worker configuration: with failing
sessions the phase result is the bare aggregate error; with successful
workers it is the measured elapsed duration. -/
theorem c4_runner_aggregate_error_witness :
    ((do_tps_bench envBad optW 0).2 = ZRes.err ZkError.ConnectionLoss
      ∧ (∀ tid, tid < optW.threads → (do_tps_bench envOk optW tid).2 = ZRes.ok))
  ∧ (do_bench (fun _ => envBad) optW (3 : ℚ) do_tps_bench).2 =
      DRes.err RunError.benchFailed
  ∧ (do_bench (fun _ => envOk) optW (3 : ℚ) do_tps_bench).2 = DRes.ok 3 :=
  ⟨⟨by decide, by decide⟩,
   (c4_runner_aggregate_error (fun _ => envBad) optW 3 do_tps_bench).1
     ⟨0, by decide, ZkError.ConnectionLoss, by decide⟩,
   (c4_runner_aggregate_error (fun _ => envOk) optW 3 do_tps_bench).2
     (by decide)⟩

/-! ### Preparer lemmas -/

/-- The create operation of the preparer's walk: empty value, persistent. -/
def walkOp (p : String) : ZkOp := ZkOp.create p [] CreateMode.Persistent

/-- Reduction of `prepare` when the session opens, the optional credential
is accepted, and the recursive delete succeeds. -/
theorem prepare_delete_ok (env : Env) (opt : BenchOption)
    (hc : env (ZkOp.connect opt.hosts opt.timeout) = ZRes.ok)
    (ha : ∀ d, opt.digest = some d → env (ZkOp.addAuth "digest" d) = ZRes.ok)
    (hd : env (ZkOp.deleteRecursive opt.pfx) = ZRes.ok) :
    prepare env opt =
      (ZkOp.connect opt.hosts opt.timeout :: authTrace opt ++
        ZkOp.deleteRecursive opt.pfx ::
          (prepareWalk env "" (skip_last (splitSlash opt.node_path_template))).1,
       (prepareWalk env "" (skip_last (splitSlash opt.node_path_template))).2) := by
  cases hdg : opt.digest with
  | none => simp [prepare, hc, hdg, authTrace, hd]
  | some d => simp [prepare, hc, hdg, authTrace, ha d hdg, hd]

/-- Reduction of `prepare` when the recursive delete fails with `NoNode`:
identical continuation to the success case (the failure is tolerated). -/
theorem prepare_delete_nonode (env : Env) (opt : BenchOption)
    (hc : env (ZkOp.connect opt.hosts opt.timeout) = ZRes.ok)
    (ha : ∀ d, opt.digest = some d → env (ZkOp.addAuth "digest" d) = ZRes.ok)
    (hd : env (ZkOp.deleteRecursive opt.pfx) = ZRes.err ZkError.NoNode) :
    prepare env opt =
      (ZkOp.connect opt.hosts opt.timeout :: authTrace opt ++
        ZkOp.deleteRecursive opt.pfx ::
          (prepareWalk env "" (skip_last (splitSlash opt.node_path_template))).1,
       (prepareWalk env "" (skip_last (splitSlash opt.node_path_template))).2) := by
  cases hdg : opt.digest with
  | none => simp [prepare, hc, hdg, authTrace, hd]
  | some d => simp [prepare, hc, hdg, authTrace, ha d hdg, hd]

/-- Reduction of `prepare` when the recursive delete fails with any error
other than `NoNode`: abort with that error, before any create. -/
theorem prepare_delete_abort (env : Env) (opt : BenchOption) (e : ZkError)
    (hc : env (ZkOp.connect opt.hosts opt.timeout) = ZRes.ok)
    (ha : ∀ d, opt.digest = some d → env (ZkOp.addAuth "digest" d) = ZRes.ok)
    (hd : env (ZkOp.deleteRecursive opt.pfx) = ZRes.err e)
    (hne : e ≠ ZkError.NoNode) :
    prepare env opt =
      (ZkOp.connect opt.hosts opt.timeout :: authTrace opt ++
        [ZkOp.deleteRecursive opt.pfx], ZRes.err e) := by
  cases e with
  | NoNode => exact absurd rfl hne
  | NodeExists =>
    cases hdg : opt.digest with
    | none => simp [prepare, hc, hdg, authTrace, hd]
    | some d => simp [prepare, hc, hdg, authTrace, ha d hdg, hd]
  | ApiError =>
    cases hdg : opt.digest with
    | none => simp [prepare, hc, hdg, authTrace, hd]
    | some d => simp [prepare, hc, hdg, authTrace, ha d hdg, hd]
  | ConnectionLoss =>
    cases hdg : opt.digest with
    | none => simp [prepare, hc, hdg, authTrace, hd]
    | some d => simp [prepare, hc, hdg, authTrace, ha d hdg, hd]

/-- Every operation the walk issues is a create of an empty persistent
node. -/
theorem prepareWalk_ops (env : Env) (s : String) (l : List String) :
    ∀ op ∈ (prepareWalk env s l).1, ∃ p, op = walkOp p := by
  induction l generalizing s with
  | nil => intro op hop; simp [prepareWalk] at hop
  | cons q rest ih =>
    intro op hop
    by_cases hq : q.isEmpty
    · rw [prepareWalk, if_pos hq] at hop
      exact ih s op hop
    · rw [prepareWalk, if_neg hq] at hop
      cases henv : env (ZkOp.create (s ++ "/" ++ q) [] CreateMode.Persistent) with
      | ok =>
        simp only [henv] at hop
        rcases List.mem_cons.mp hop with rfl | hop
        · exact ⟨s ++ "/" ++ q, rfl⟩
        · exact ih (s ++ "/" ++ q) op hop
      | err e =>
        cases e with
        | NodeExists =>
          simp only [henv] at hop
          rcases List.mem_cons.mp hop with rfl | hop
          · exact ⟨s ++ "/" ++ q, rfl⟩
          · exact ih (s ++ "/" ++ q) op hop
        | NoNode =>
          simp only [henv] at hop
          rcases List.mem_cons.mp hop with rfl | hop
          · exact ⟨s ++ "/" ++ q, rfl⟩
          · simp at hop
        | ApiError =>
          simp only [henv] at hop
          rcases List.mem_cons.mp hop with rfl | hop
          · exact ⟨s ++ "/" ++ q, rfl⟩
          · simp at hop
        | ConnectionLoss =>
          simp only [henv] at hop
          rcases List.mem_cons.mp hop with rfl | hop
          · exact ⟨s ++ "/" ++ q, rfl⟩
          · simp at hop

/-- When each walked path's create either succeeds or reports
`NodeExists`, the walk issues a create for every walked path and
succeeds. -/
theorem prepareWalk_tolerant (env : Env) (s : String) (l : List String)
    (h : ∀ p ∈ walkPaths s l,
      env (walkOp p) = ZRes.ok ∨ env (walkOp p) = ZRes.err ZkError.NodeExists) :
    prepareWalk env s l = ((walkPaths s l).map walkOp, ZRes.ok) := by
  induction l generalizing s with
  | nil => rfl
  | cons q rest ih =>
    by_cases hq : q.isEmpty
    · rw [prepareWalk, if_pos hq, walkPaths, if_pos hq]
      exact ih s (by rw [walkPaths, if_pos hq] at h; exact h)
    · have hmem : (s ++ "/" ++ q) ∈ walkPaths s (q :: rest) := by
        rw [walkPaths, if_neg hq]; exact List.mem_cons_self _ _
      have hrest : ∀ p ∈ walkPaths (s ++ "/" ++ q) rest,
          env (walkOp p) = ZRes.ok ∨ env (walkOp p) = ZRes.err ZkError.NodeExists := by
        intro p hp
        exact h p (by rw [walkPaths, if_neg hq]; exact List.mem_cons_of_mem _ hp)
      rw [prepareWalk, if_neg hq, walkPaths, if_neg hq]
      have hw : env (ZkOp.create (s ++ "/" ++ q) [] CreateMode.Persistent) = ZRes.ok ∨
          env (ZkOp.create (s ++ "/" ++ q) [] CreateMode.Persistent) =
            ZRes.err ZkError.NodeExists := h _ hmem
      rcases hw with hok | hex
      · simp only [hok, ih (s ++ "/" ++ q) hrest]
        simp [walkOp]
      · simp only [hex, ih (s ++ "/" ++ q) hrest]
        simp [walkOp]

/-- When the walked paths split as `l1 ++ p :: l2` with every create in `l1`
tolerated and the create at `p` failing with an error other than
`NodeExists`, the walk issues exactly the creates for `l1 ++ [p]` and aborts
with that error. -/
theorem prepareWalk_abort (env : Env) (s : String) (l : List String)
    (l1 l2 : List String) (p : String) (e : ZkError)
    (hsplit : walkPaths s l = l1 ++ p :: l2)
    (h1 : ∀ q ∈ l1, env (walkOp q) = ZRes.ok ∨ env (walkOp q) = ZRes.err ZkError.NodeExists)
    (hf : env (walkOp p) = ZRes.err e) (hne : e ≠ ZkError.NodeExists) :
    prepareWalk env s l = ((l1 ++ [p]).map walkOp, ZRes.err e) := by
  simp only [walkOp] at hf h1
  induction l generalizing s l1 with
  | nil => simp [walkPaths] at hsplit
  | cons q rest ih =>
    by_cases hq : q.isEmpty
    · rw [walkPaths, if_pos hq] at hsplit
      rw [prepareWalk, if_pos hq]
      exact ih s l1 hsplit h1
    · rw [walkPaths, if_neg hq] at hsplit
      rw [prepareWalk, if_neg hq]
      cases l1 with
      | nil =>
        simp only [List.nil_append, List.cons.injEq] at hsplit
        obtain ⟨rfl, -⟩ := hsplit
        cases e with
        | NodeExists => exact absurd rfl hne
        | NoNode => simp only [hf]; simp [walkOp]
        | ApiError => simp only [hf]; simp [walkOp]
        | ConnectionLoss => simp only [hf]; simp [walkOp]
      | cons a l1' =>
        simp only [List.cons_append, List.cons.injEq] at hsplit
        obtain ⟨ha, hsp⟩ := hsplit
        subst ha
        have hrec := ih (s ++ "/" ++ q) l1' hsp
          (fun q' hq' => h1 q' (List.mem_cons_of_mem _ hq'))
        rcases h1 _ (List.mem_cons_self _ _) with hok | hex
        · simp only [hok, hrec]
          simp [walkOp]
        · simp only [hex, hrec]
          simp [walkOp]

/-! ### C5 -/

/-- C5: given a working session (connect, and credential when configured),
the recursive delete of the subtree at `namespacePrefix` appears exactly
once in the preparer's trace; a `NoNode` failure of it leaves preparation
exactly as if the delete had succeeded (the walk continues); and any other
failure aborts preparation with that error, with no create issued. -/
theorem c5_delete_once_nonode_tolerated (env : Env) (opt : BenchOption)
    (hc : env (ZkOp.connect opt.hosts opt.timeout) = ZRes.ok)
    (ha : ∀ d, opt.digest = some d → env (ZkOp.addAuth "digest" d) = ZRes.ok) :
    ((prepare env opt).1.count (ZkOp.deleteRecursive opt.pfx) = 1)
  ∧ (env (ZkOp.deleteRecursive opt.pfx) = ZRes.err ZkError.NoNode →
      prepare env opt =
        (ZkOp.connect opt.hosts opt.timeout :: authTrace opt ++
          ZkOp.deleteRecursive opt.pfx ::
            (prepareWalk env "" (skip_last (splitSlash opt.node_path_template))).1,
         (prepareWalk env "" (skip_last (splitSlash opt.node_path_template))).2))
  ∧ (∀ e, env (ZkOp.deleteRecursive opt.pfx) = ZRes.err e → e ≠ ZkError.NoNode →
      prepare env opt =
        (ZkOp.connect opt.hosts opt.timeout :: authTrace opt ++
          [ZkOp.deleteRecursive opt.pfx], ZRes.err e)
      ∧ ∀ p v m, ZkOp.create p v m ∉ (prepare env opt).1) := by
  have hwalk : ZkOp.deleteRecursive opt.pfx ∉
      (prepareWalk env "" (skip_last (splitSlash opt.node_path_template))).1 := by
    intro hmem
    rcases prepareWalk_ops env _ _ _ hmem with ⟨p, hp⟩
    simp [walkOp] at hp
  have hauth : ZkOp.deleteRecursive opt.pfx ∉ authTrace opt := by
    cases hdg : opt.digest <;> simp [authTrace, hdg]
  refine ⟨?_, ?_, ?_⟩
  · cases henvd : env (ZkOp.deleteRecursive opt.pfx) with
    | ok =>
      rw [prepare_delete_ok env opt hc ha henvd]
      simp [List.count_cons, List.count_append, List.count_eq_zero.mpr hwalk,
        List.count_eq_zero.mpr hauth]
    | err e =>
      by_cases hne : e = ZkError.NoNode
      · subst hne
        rw [prepare_delete_nonode env opt hc ha henvd]
        simp [List.count_cons, List.count_append, List.count_eq_zero.mpr hwalk,
          List.count_eq_zero.mpr hauth]
      · rw [prepare_delete_abort env opt e hc ha henvd hne]
        simp [List.count_cons, List.count_append, List.count_eq_zero.mpr hauth]
  · intro henvd
    exact prepare_delete_nonode env opt hc ha henvd
  · intro e henvd hne
    refine ⟨prepare_delete_abort env opt e hc ha henvd hne, ?_⟩
    rw [prepare_delete_abort env opt e hc ha henvd hne]
    intro p v m hmem
    rcases List.mem_cons.mp hmem with h | h
    · simp at h
    · rcases List.mem_append.mp h with h | h
      · cases hdg : opt.digest <;> simp [authTrace, hdg] at h
      · simp at h

/-- An oracle whose recursive deletes report `NoNode` and whose other calls
succeed. -/
def envNoNode : Env := fun op =>
  match op with
  | ZkOp.deleteRecursive _ => ZRes.err ZkError.NoNode
  | _ => ZRes.ok

/-- Witness for C5 on the concrete configuration: the delete appears exactly
once, and its `NoNode` failure lets preparation continue into the segment
walk. -/
theorem c5_delete_once_nonode_tolerated_witness :
    (envNoNode (ZkOp.connect optW.hosts optW.timeout) = ZRes.ok
      ∧ envNoNode (ZkOp.deleteRecursive optW.pfx) = ZRes.err ZkError.NoNode)
  ∧ (prepare envNoNode optW).1.count (ZkOp.deleteRecursive optW.pfx) = 1
  ∧ prepare envNoNode optW =
      (ZkOp.connect optW.hosts optW.timeout :: authTrace optW ++
        ZkOp.deleteRecursive optW.pfx ::
          (prepareWalk envNoNode "" (skip_last (splitSlash optW.node_path_template))).1,
       (prepareWalk envNoNode "" (skip_last (splitSlash optW.node_path_template))).2) :=
  ⟨⟨rfl, rfl⟩,
   (c5_delete_once_nonode_tolerated envNoNode optW rfl (fun _ h => nomatch h)).1,
   (c5_delete_once_nonode_tolerated envNoNode optW rfl (fun _ h => nomatch h)).2.1 rfl⟩

/-! ### C6 -/

/-- The walk's accumulated paths are the accumulation over the non-empty
segments. -/
theorem walkPaths_eq_accumFrom (s : String) (l : List String) :
    walkPaths s l = accumFrom s (l.filter (fun p => !p.isEmpty)) := by
  induction l generalizing s with
  | nil => rfl
  | cons q rest ih =>
    by_cases hq : q.isEmpty
    · rw [walkPaths, if_pos hq]
      have hfil : (q :: rest).filter (fun p => !p.isEmpty) =
          rest.filter (fun p => !p.isEmpty) := by
        simp [List.filter_cons, hq]
      rw [hfil]
      exact ih s
    · rw [walkPaths, if_neg hq]
      have hfil : (q :: rest).filter (fun p => !p.isEmpty) =
          q :: rest.filter (fun p => !p.isEmpty) := by
        simp [List.filter_cons, hq]
      rw [hfil, accumFrom, ih (s ++ "/" ++ q)]

/-- A list whose `getLast?` is `some q` is some list with `q` appended. -/
theorem exists_concat_of_getLast (l : List String) (q : String)
    (h : l.getLast? = some q) : ∃ l', l = l' ++ [q] := by
  induction l with
  | nil => simp at h
  | cons a rest ih =>
    cases rest with
    | nil =>
      simp [List.getLast?] at h
      exact ⟨[], by simp [h]⟩
    | cons b rest' =>
      have h' : (b :: rest').getLast? = some q := by
        rwa [List.getLast?_cons_cons] at h
      obtain ⟨l', hl⟩ := ih h'
      exact ⟨a :: l', by simp [hl]⟩

/-- Dropping the final segment before filtering empties agrees with
filtering empties and then dropping the final leaf, whenever the final raw
segment is non-empty — the bridge between the source's walk
(`skip_last` then skip-empty) and the spec's reading (non-empty segments
except the final leaf). -/
theorem filter_dropLast_comm (l : List String) (q : String)
    (h : l.getLast? = some q) (hq : ¬q.isEmpty) :
    (l.dropLast).filter (fun p => !p.isEmpty) =
      (l.filter (fun p => !p.isEmpty)).dropLast := by
  obtain ⟨l', rfl⟩ := exists_concat_of_getLast l q h
  rw [List.dropLast_concat, List.filter_append]
  have hfq : [q].filter (fun p => !p.isEmpty) = [q] := by simp [hq]
  rw [hfq, List.dropLast_concat]

/-- C6: whenever the session is up (connect and optional credential ok) and
the recursive delete succeeded or was tolerated, the walked paths are
exactly the accumulated paths of every non-empty segment of
`nodePathTemplate` except the final leaf (the source's drop-raw-last then
skip-empty walk coincides with the spec's reading whenever the template's
final raw segment is non-empty); each such path is created with empty value
and `Persistent` mode; if each such create succeeds or reports `NodeExists`
the whole preparation succeeds having issued exactly those creates in
root-to-leaf order; and the first create failing with any other error aborts
preparation with that error, issuing no later create. -/
theorem c6_intermediate_creates (env : Env) (opt : BenchOption) (q : String)
    (hc : env (ZkOp.connect opt.hosts opt.timeout) = ZRes.ok)
    (ha : ∀ d, opt.digest = some d → env (ZkOp.addAuth "digest" d) = ZRes.ok)
    (hdel : env (ZkOp.deleteRecursive opt.pfx) = ZRes.ok ∨
      env (ZkOp.deleteRecursive opt.pfx) = ZRes.err ZkError.NoNode)
    (hlast : (splitSlash opt.node_path_template).getLast? = some q)
    (hq : ¬q.isEmpty) :
    (walkPaths "" (skip_last (splitSlash opt.node_path_template)) =
      specWalkPaths opt.node_path_template)
  ∧ ((∀ p ∈ specWalkPaths opt.node_path_template,
        env (walkOp p) = ZRes.ok ∨ env (walkOp p) = ZRes.err ZkError.NodeExists) →
      prepare env opt =
        (ZkOp.connect opt.hosts opt.timeout :: authTrace opt ++
          ZkOp.deleteRecursive opt.pfx ::
            (specWalkPaths opt.node_path_template).map walkOp,
         ZRes.ok))
  ∧ (∀ l1 p l2 e, specWalkPaths opt.node_path_template = l1 ++ p :: l2 →
      (∀ p' ∈ l1, env (walkOp p') = ZRes.ok ∨ env (walkOp p') = ZRes.err ZkError.NodeExists) →
      env (walkOp p) = ZRes.err e → e ≠ ZkError.NodeExists →
      prepare env opt =
        (ZkOp.connect opt.hosts opt.timeout :: authTrace opt ++
          ZkOp.deleteRecursive opt.pfx :: (l1 ++ [p]).map walkOp,
         ZRes.err e)) := by
  have hskip : walkPaths "" (skip_last (splitSlash opt.node_path_template)) =
      specWalkPaths opt.node_path_template := by
    rw [walkPaths_eq_accumFrom, skip_last, specWalkPaths,
      filter_dropLast_comm _ q hlast hq]
  refine ⟨hskip, ?_, ?_⟩
  · intro htol
    have hw := prepareWalk_tolerant env "" (skip_last (splitSlash opt.node_path_template))
      (by rw [hskip]; exact htol)
    rcases hdel with hd | hd
    · rw [prepare_delete_ok env opt hc ha hd, hw]
      simp [hskip]
    · rw [prepare_delete_nonode env opt hc ha hd, hw]
      simp [hskip]
  · intro l1 p l2 e hsp h1 hf hne
    have hw := prepareWalk_abort env "" (skip_last (splitSlash opt.node_path_template))
      l1 l2 p e (by rw [hskip]; exact hsp) h1 hf hne
    rcases hdel with hd | hd
    · rw [prepare_delete_ok env opt hc ha hd, hw]
    · rw [prepare_delete_nonode env opt hc ha hd, hw]

/-- An oracle on which every create reports `NodeExists` and everything
else succeeds. -/
def envExists : Env := fun op =>
  match op with
  | ZkOp.create _ _ _ => ZRes.err ZkError.NodeExists
  | _ => ZRes.ok

/-- Witness for C6 on the concrete template `/zoobench/test-node`: the
walked path list is exactly `["/zoobench"]` (the leaf `test-node` is not
created), and with every create reporting `NodeExists` the preparation
still succeeds, having attempted exactly that create. -/
theorem c6_intermediate_creates_witness :
    (specWalkPaths optW.node_path_template = ["/zoobench"]
      ∧ (splitSlash optW.node_path_template).getLast? = some "test-node")
  ∧ walkPaths "" (skip_last (splitSlash optW.node_path_template)) =
      specWalkPaths optW.node_path_template
  ∧ prepare envExists optW =
      (ZkOp.connect optW.hosts optW.timeout :: authTrace optW ++
        ZkOp.deleteRecursive optW.pfx ::
          (specWalkPaths optW.node_path_template).map walkOp,
       ZRes.ok) :=
  ⟨⟨by decide, by decide⟩,
   (c6_intermediate_creates envExists optW "test-node" rfl (fun _ h => nomatch h)
      (Or.inl rfl) (by decide) (by decide)).1,
   (c6_intermediate_creates envExists optW "test-node" rfl (fun _ h => nomatch h)
      (Or.inl rfl) (by decide) (by decide)).2.1 (by decide)⟩

/-! ### Orchestrator lemmas -/

/-- Reduction of `prepare` when the connect fails. -/
theorem prepare_connect_err (env : Env) (opt : BenchOption) (e : ZkError)
    (h : env (ZkOp.connect opt.hosts opt.timeout) = ZRes.err e) :
    prepare env opt = ([ZkOp.connect opt.hosts opt.timeout], ZRes.err e) := by
  simp [prepare, h]

/-- Reduction of `prepare` when the credential is rejected. -/
theorem prepare_auth_err (env : Env) (opt : BenchOption) (d : String) (e : ZkError)
    (hc : env (ZkOp.connect opt.hosts opt.timeout) = ZRes.ok)
    (hdg : opt.digest = some d)
    (h : env (ZkOp.addAuth "digest" d) = ZRes.err e) :
    prepare env opt =
      (ZkOp.connect opt.hosts opt.timeout :: authTrace opt, ZRes.err e) := by
  simp [prepare, hc, hdg, authTrace, h]

/-- Every operation the preparer issues is its connect, its digest
authentication, its recursive delete, or one of the walk's creates. -/
theorem prepare_ops (env : Env) (opt : BenchOption) :
    ∀ op ∈ (prepare env opt).1,
      op = ZkOp.connect opt.hosts opt.timeout ∨
      (∃ d, op = ZkOp.addAuth "digest" d) ∨
      op = ZkOp.deleteRecursive opt.pfx ∨
      (∃ q, op = walkOp q) := by
  have hfull : ∀ l : List ZkOp, (∀ o ∈ l, ∃ q, o = walkOp q) →
      ∀ op ∈ ZkOp.connect opt.hosts opt.timeout :: authTrace opt ++
        ZkOp.deleteRecursive opt.pfx :: l,
      op = ZkOp.connect opt.hosts opt.timeout ∨
      (∃ d, op = ZkOp.addAuth "digest" d) ∨
      op = ZkOp.deleteRecursive opt.pfx ∨
      (∃ q, op = walkOp q) := by
    intro l hl op hop
    rcases List.mem_cons.mp hop with rfl | hop
    · exact Or.inl rfl
    rcases List.mem_append.mp hop with h | h
    · cases hdg : opt.digest with
      | none => simp [authTrace, hdg] at h
      | some d =>
        simp [authTrace, hdg] at h
        exact Or.inr (Or.inl ⟨d, h⟩)
    · rcases List.mem_cons.mp h with rfl | h
      · exact Or.inr (Or.inr (Or.inl rfl))
      · exact Or.inr (Or.inr (Or.inr (hl op h)))
  intro op hop
  cases henvc : env (ZkOp.connect opt.hosts opt.timeout) with
  | err e =>
    rw [prepare_connect_err env opt e henvc] at hop
    rcases List.mem_cons.mp hop with rfl | hop
    · exact Or.inl rfl
    · simp at hop
  | ok =>
    by_cases hauth : ∀ d', opt.digest = some d' → env (ZkOp.addAuth "digest" d') = ZRes.ok
    · cases henvd : env (ZkOp.deleteRecursive opt.pfx) with
      | ok =>
        rw [prepare_delete_ok env opt henvc hauth henvd] at hop
        exact hfull _ (fun o ho => prepareWalk_ops env _ _ o ho) op hop
      | err e =>
        by_cases hne : e = ZkError.NoNode
        · subst hne
          rw [prepare_delete_nonode env opt henvc hauth henvd] at hop
          exact hfull _ (fun o ho => prepareWalk_ops env _ _ o ho) op hop
        · rw [prepare_delete_abort env opt e henvc hauth henvd hne] at hop
          exact hfull [] (fun o ho => by simp at ho) op
            (by simpa using hop)
    · push_neg at hauth
      obtain ⟨d, hdg, hbad⟩ := hauth
      cases henva : env (ZkOp.addAuth "digest" d) with
      | ok => exact absurd henva hbad
      | err e =>
        rw [prepare_auth_err env opt d e henvc hdg henva] at hop
        rcases List.mem_cons.mp hop with rfl | hop
        · exact Or.inl rfl
        · cases hdg2 : opt.digest with
          | none => rw [hdg2] at hdg; cases hdg
          | some d2 =>
            simp [authTrace, hdg2] at hop
            exact Or.inr (Or.inl ⟨d2, hop⟩)

/-- The preparer never issues a read. -/
theorem prepare_no_getData (env : Env) (opt : BenchOption) (p : String) (w : Bool) :
    ZkOp.getData p w ∉ (prepare env opt).1 := by
  intro hop
  rcases prepare_ops env opt _ hop with h | ⟨d, h⟩ | h | ⟨q, h⟩ <;>
    simp [walkOp] at h

/-- Every operation in a phase trace belongs to some worker's trace. -/
theorem do_bench_trace_mem (envs : Nat → Env) (opt : BenchOption) (el : ℚ)
    (f : Env → BenchOption → Nat → List ZkOp × ZRes) (op : ZkOp)
    (h : op ∈ (do_bench envs opt el f).1) :
    ∃ tid, tid < opt.threads ∧ op ∈ (f (envs tid) opt tid).1 := by
  simp only [do_bench, List.mem_flatten, List.mem_map, List.mem_range] at h
  obtain ⟨tr, ⟨run, ⟨tid, htid, rfl⟩, rfl⟩, hmem⟩ := h
  exact ⟨tid, htid, hmem⟩

/-- The write phase never issues a read. -/
theorem do_bench_tps_no_getData (envs : Nat → Env) (opt : BenchOption) (el : ℚ)
    (p : String) (w : Bool) :
    ZkOp.getData p w ∉ (do_bench envs opt el do_tps_bench).1 := by
  intro h
  obtain ⟨tid, -, hmem⟩ := do_bench_trace_mem envs opt el do_tps_bench _ h
  rcases do_tps_bench_ops (envs tid) opt tid _ hmem with h1 | ⟨i, -, h1⟩ <;>
    simp [tpsOp] at h1

/-- Neither phase ever issues a recursive delete. -/
theorem do_bench_no_delete (envs : Nat → Env) (opt : BenchOption) (el : ℚ) (pth : String) :
    ZkOp.deleteRecursive pth ∉ (do_bench envs opt el do_tps_bench).1 ∧
    ZkOp.deleteRecursive pth ∉ (do_bench envs opt el do_qps_bench).1 := by
  constructor <;> intro h
  · obtain ⟨tid, -, hmem⟩ := do_bench_trace_mem envs opt el do_tps_bench _ h
    rcases do_tps_bench_ops (envs tid) opt tid _ hmem with h1 | ⟨i, -, h1⟩ <;>
      simp [tpsOp] at h1
  · obtain ⟨tid, -, hmem⟩ := do_bench_trace_mem envs opt el do_qps_bench _ h
    rcases do_qps_bench_ops (envs tid) opt tid _ hmem with h1 | ⟨i, -, h1⟩ <;>
      simp [qpsOp] at h1

/-- A phase result `ok x` carries exactly the externally measured duration. -/
theorem do_bench_ok_elapsed (envs : Nat → Env) (opt : BenchOption) (el x : ℚ)
    (f : Env → BenchOption → Nat → List ZkOp × ZRes)
    (h : (do_bench envs opt el f).2 = DRes.ok x) : x = el := by
  by_cases hb : (((List.range opt.threads).map fun tid => f (envs tid) opt tid).any
      fun r => isErrRes r.2) = true
  · simp [do_bench, hb] at h
  · simp [do_bench, hb] at h
    exact h.symm

/-! ### C3 -/

/-- C3: the orchestrator's trace begins with the preparer's full trace (the
preparer runs before any phase, and the only recursive deletes of the whole
run are the preparer's); a preparer failure aborts the run with that error;
a write-phase failure yields the aggregate error with no read ever issued
and no throughput produced; and only when preparation and both phases
succeed is a result returned, with `tps` and `qps` the iteration count over
the respective phase durations. -/
theorem c3_orchestrator_phases (envP : Env) (envs1 envs2 : Nat → Env)
    (e1 e2 : ℚ) (opt : BenchOption) :
    ((prepare envP opt).1 <+: (bench envP envs1 envs2 e1 e2 opt).1)
  ∧ (∀ pth, (bench envP envs1 envs2 e1 e2 opt).1.count (ZkOp.deleteRecursive pth) =
      (prepare envP opt).1.count (ZkOp.deleteRecursive pth))
  ∧ (∀ e, (prepare envP opt).2 = ZRes.err e →
      (bench envP envs1 envs2 e1 e2 opt).2 = BRes.err (RunError.zk e))
  ∧ ((prepare envP opt).2 = ZRes.ok →
      (do_bench envs1 opt e1 do_tps_bench).2 = DRes.err RunError.benchFailed →
      (bench envP envs1 envs2 e1 e2 opt).2 = BRes.err RunError.benchFailed
        ∧ ∀ p w, ZkOp.getData p w ∉ (bench envP envs1 envs2 e1 e2 opt).1)
  ∧ ((prepare envP opt).2 = ZRes.ok →
      (do_bench envs1 opt e1 do_tps_bench).2 = DRes.ok e1 →
      (do_bench envs2 opt e2 do_qps_bench).2 = DRes.ok e2 →
      (bench envP envs1 envs2 e1 e2 opt).2 =
        BRes.ok ⟨e2, (opt.iteration : ℚ) / e1, (opt.iteration : ℚ) / e2⟩) := by
  refine ⟨?_, ?_, ?_, ?_, ?_⟩
  · cases hp : (prepare envP opt).2 with
    | err e => simp [bench, hp]
    | ok =>
      cases hw : (do_bench envs1 opt e1 do_tps_bench).2 with
      | err er =>
        simp only [bench, hp, hw]
        exact ⟨(do_bench envs1 opt e1 do_tps_bench).1, rfl⟩
      | ok el1 =>
        cases hr : (do_bench envs2 opt e2 do_qps_bench).2 with
        | err er =>
          simp only [bench, hp, hw, hr]
          exact ⟨(do_bench envs1 opt e1 do_tps_bench).1 ++
            (do_bench envs2 opt e2 do_qps_bench).1, by simp⟩
        | ok el2 =>
          simp only [bench, hp, hw, hr]
          exact ⟨(do_bench envs1 opt e1 do_tps_bench).1 ++
            (do_bench envs2 opt e2 do_qps_bench).1, by simp⟩
  · intro pth
    have hzw : (do_bench envs1 opt e1 do_tps_bench).1.count (ZkOp.deleteRecursive pth) = 0 :=
      List.count_eq_zero.mpr (do_bench_no_delete envs1 opt e1 pth).1
    have hzr : (do_bench envs2 opt e2 do_qps_bench).1.count (ZkOp.deleteRecursive pth) = 0 :=
      List.count_eq_zero.mpr (do_bench_no_delete envs2 opt e2 pth).2
    cases hp : (prepare envP opt).2 with
    | err e => simp [bench, hp]
    | ok =>
      cases hw : (do_bench envs1 opt e1 do_tps_bench).2 with
      | err er => simp [bench, hp, hw, List.count_append, hzw]
      | ok el1 =>
        cases hr : (do_bench envs2 opt e2 do_qps_bench).2 with
        | err er => simp [bench, hp, hw, hr, List.count_append, hzw, hzr]
        | ok el2 => simp [bench, hp, hw, hr, List.count_append, hzw, hzr]
  · intro e hp
    simp [bench, hp]
  · intro hp hw
    refine ⟨by simp [bench, hp, hw], ?_⟩
    intro p w hmem
    rw [show (bench envP envs1 envs2 e1 e2 opt).1 =
        (prepare envP opt).1 ++ (do_bench envs1 opt e1 do_tps_bench).1 from by
      simp [bench, hp, hw]] at hmem
    rcases List.mem_append.mp hmem with h | h
    · exact prepare_no_getData envP opt p w h
    · exact do_bench_tps_no_getData envs1 opt e1 p w h
  · intro hp hw hr
    simp [bench, hp, hw, hr]

/-- With every call succeeding, a write phase on the concrete configuration
returns its measured duration (rational arithmetic is kept symbolic: the
worker outcomes are decided at the `Bool` level). -/
theorem do_bench_envOk_tps_ok (el : ℚ) :
    (do_bench (fun _ => envOk) optW el do_tps_bench).2 = DRes.ok el := by
  have hany : (((List.range optW.threads).map fun tid => do_tps_bench envOk optW tid).any
      fun r => isErrRes r.2) = false := by decide
  simp [do_bench, hany]

/-- Same for a read phase. -/
theorem do_bench_envOk_qps_ok (el : ℚ) :
    (do_bench (fun _ => envOk) optW el do_qps_bench).2 = DRes.ok el := by
  have hany : (((List.range optW.threads).map fun tid => do_qps_bench envOk optW tid).any
      fun r => isErrRes r.2) = false := by decide
  simp [do_bench, hany]

/-- Witness for C3, on the concrete configuration, exercising all three
outcomes: a failing preparer aborts with its error; a failing write phase
yields the aggregate error and the whole trace contains no read; a clean
run returns the two throughput quotients with the read-phase duration. -/
theorem c3_orchestrator_phases_witness :
    ((prepare envBad optW).2 = ZRes.err ZkError.ConnectionLoss
      ∧ (bench envBad (fun _ => envOk) (fun _ => envOk) 2 4 optW).2 =
          BRes.err (RunError.zk ZkError.ConnectionLoss))
  ∧ ((prepare envOk optW).2 = ZRes.ok
      ∧ (do_bench (fun _ => envBad) optW 2 do_tps_bench).2 = DRes.err RunError.benchFailed
      ∧ (bench envOk (fun _ => envBad) (fun _ => envOk) 2 4 optW).2 =
          BRes.err RunError.benchFailed
      ∧ ZkOp.getData "/zoobench/test-node0" false ∉
          (bench envOk (fun _ => envBad) (fun _ => envOk) 2 4 optW).1)
  ∧ (bench envOk (fun _ => envOk) (fun _ => envOk) 2 4 optW).2 =
      BRes.ok ⟨4, (optW.iteration : ℚ) / 2, (optW.iteration : ℚ) / 4⟩ :=
  ⟨⟨by decide,
    (c3_orchestrator_phases envBad (fun _ => envOk) (fun _ => envOk) 2 4 optW).2.2.1
      ZkError.ConnectionLoss (by decide)⟩,
   ⟨by decide, by decide,
    ((c3_orchestrator_phases envOk (fun _ => envBad) (fun _ => envOk) 2 4 optW).2.2.2.1
      (by decide) (by decide)).1,
    fun h => ((c3_orchestrator_phases envOk (fun _ => envBad) (fun _ => envOk) 2 4 optW).2.2.2.1
      (by decide) (by decide)).2 "/zoobench/test-node0" false h⟩,
   (c3_orchestrator_phases envOk (fun _ => envOk) (fun _ => envOk) 2 4 optW).2.2.2.2
     (by decide) (do_bench_envOk_tps_ok 2) (do_bench_envOk_qps_ok 4)⟩

/-! ### C10 -/

/-- C10: whenever the orchestrator succeeds, the `elapsed` field of the
returned result is exactly the read (QPS) phase's measured duration; the
write phase's duration appears only inside `tps`. -/
theorem c10_result_elapsed_is_read_phase (envP : Env) (envs1 envs2 : Nat → Env)
    (e1 e2 : ℚ) (opt : BenchOption) (r : BenchResult)
    (h : (bench envP envs1 envs2 e1 e2 opt).2 = BRes.ok r) :
    r.elapsed = e2 ∧ r.tps = (opt.iteration : ℚ) / e1 ∧
      r.qps = (opt.iteration : ℚ) / e2 := by
  cases hp : (prepare envP opt).2 with
  | err e => simp [bench, hp] at h
  | ok =>
    cases hw : (do_bench envs1 opt e1 do_tps_bench).2 with
    | err er => simp [bench, hp, hw] at h
    | ok el1 =>
      have he1 : el1 = e1 := do_bench_ok_elapsed envs1 opt e1 el1 do_tps_bench hw
      cases hr : (do_bench envs2 opt e2 do_qps_bench).2 with
      | err er => simp [bench, hp, hw, hr] at h
      | ok el2 =>
        have he2 : el2 = e2 := do_bench_ok_elapsed envs2 opt e2 el2 do_qps_bench hr
        subst he1
        subst he2
        simp only [bench, hp, hw, hr, BRes.ok.injEq] at h
        rw [← h]
        exact ⟨rfl, rfl, rfl⟩

/-- Witness for C10 on a clean concrete run with write duration 2 and read
duration 4: the result's `elapsed` is 4 — the read phase's duration — and
the rates are 10 over the respective durations. -/
theorem c10_result_elapsed_is_read_phase_witness :
    (bench envOk (fun _ => envOk) (fun _ => envOk) 2 4 optW).2 =
      BRes.ok ⟨4, (optW.iteration : ℚ) / 2, (optW.iteration : ℚ) / 4⟩
  ∧ ((BenchResult.mk 4 ((optW.iteration : ℚ) / 2) ((optW.iteration : ℚ) / 4)).elapsed = 4
      ∧ (BenchResult.mk 4 ((optW.iteration : ℚ) / 2) ((optW.iteration : ℚ) / 4)).tps =
          (optW.iteration : ℚ) / 2
      ∧ (BenchResult.mk 4 ((optW.iteration : ℚ) / 2) ((optW.iteration : ℚ) / 4)).qps =
          (optW.iteration : ℚ) / 4) := by
  have hb : (bench envOk (fun _ => envOk) (fun _ => envOk) 2 4 optW).2 =
      BRes.ok ⟨4, (optW.iteration : ℚ) / 2, (optW.iteration : ℚ) / 4⟩ := by
    have hp : (prepare envOk optW).2 = ZRes.ok := by decide
    simp [bench, hp, do_bench_envOk_tps_ok 2, do_bench_envOk_qps_ok 4]
  exact ⟨hb, c10_result_elapsed_is_read_phase envOk (fun _ => envOk) (fun _ => envOk)
    2 4 optW ⟨4, (optW.iteration : ℚ) / 2, (optW.iteration : ℚ) / 4⟩ hb⟩

/-! ### C8 -/

/-- C8: for any CLI configuration and item index, the node-path template is
the namespace prefix with `"/test-node"` appended, the write operation
creates exactly `nodePathTemplate ++ i` (the index in decimal, directly
concatenated) with the shared payload and the mode selected by the
ephemeral flag, and the read operation reads the very same path. -/
theorem c8_item_paths (c : Cli) (buf : List Nat) (i : Nat) :
    (BenchOption.fromCli c buf).node_path_template = c.pfx ++ "/test-node"
  ∧ tpsOp (BenchOption.fromCli c buf) i =
      ZkOp.create (c.pfx ++ "/test-node" ++ Nat.repr i) buf
        (if c.ephemeral then CreateMode.Ephemeral else CreateMode.Persistent)
  ∧ qpsOp (BenchOption.fromCli c buf) i =
      ZkOp.getData (c.pfx ++ "/test-node" ++ Nat.repr i) false :=
  ⟨rfl, rfl, rfl⟩
